import Mathlib

/-!
Verification development for the leveled homomorphic evaluation engine
exercised by the HomEnc notebooks (BFV and CKKS schemes over a common
modulus-switching-chain substrate).

The notebooks call into an external encryption library; the engine itself
(parameter sets, modulus chain, key generation, encoder, encryptor,
evaluator) is therefore modelled here from the specification, while the
helper functions defined in the notebooks themselves (`divByPo2`,
`bad_copy`) and the recorded run outputs are translated directly from the
source files.
-/

namespace HomEnc

/-- Scheme tag of a parameter set: exact integer scheme (BFV) or approximate
real/complex scheme (CKKS). -/
inductive SchemeTag where
  | integer
  | approximate
deriving DecidableEq

/-- Modelled from the spec: a `ParameterSet` is a polynomial-ring degree, an
ordered sequence of modulus primes, an optional plaintext modulus (0 when
absent; exact scheme only) and a scheme tag.  Immutable once constructed.
The deterministic fingerprint of a parameter set is modelled by the
normalized parameter set itself (an injective hash). -/
structure ParameterSet where
  polyModulusDegree : Nat
  coeffModulus : List Nat
  plainModulus : Nat
  scheme : SchemeTag
deriving DecidableEq

/-- Worker for `bitLength`, structurally recursive on a fuel argument so
that it evaluates by kernel reduction. -/
def bitLengthAux : Nat → Nat → Nat
  | 0, _ => 0
  | fuel + 1, n => if n = 0 then 0 else bitLengthAux fuel (n / 2) + 1

/-- Number of binary digits of `n` (0 for `n = 0`). -/
def bitLength (n : Nat) : Nat :=
  bitLengthAux n n

/-- Total bit-length of a modulus: the sum of the bit-lengths of its prime
factors. -/
def totalBitCount (primes : List Nat) : Nat :=
  (primes.map bitLength).sum

/-- Modelled from the spec: deriving the next parameter set down the chain
removes the last prime from the modulus list. -/
def dropLastPrime (ps : ParameterSet) : ParameterSet :=
  { ps with coeffModulus := ps.coeffModulus.dropLast }

/-- Modelled from the spec: internal validity of a derived parameter set —
the remaining prime count is at least 1 and, for the exact scheme, the
remaining total modulus bit-length is at least the plaintext-modulus
bit-length. -/
def derivedValid (ps : ParameterSet) : Bool :=
  decide (1 ≤ ps.coeffModulus.length) &&
    (match ps.scheme with
     | .integer => decide (bitLength ps.plainModulus ≤ totalBitCount ps.coeffModulus)
     | .approximate => true)

/-- Modelled from the spec: chain construction worker.  Starting from a
parameter set, repeatedly derive the next set by dropping the last prime,
accepting it while it remains valid; stop at the first invalid derivation.
The fuel is the prime count of the starting set, which bounds the number of
possible derivations. -/
def dataChainAux : Nat → ParameterSet → List ParameterSet
  | 0, _ => []
  | fuel + 1, ps =>
    let next := dropLastPrime ps
    if derivedValid next then next :: dataChainAux fuel next else []

/-- Modelled from the spec: the (data-level) modulus chain derived from the
root parameter set, listed from the first (highest) data level down to the
terminal level. -/
def dataChain (root : ParameterSet) : List ParameterSet :=
  dataChainAux root.coeffModulus.length root

/-- Number of data levels of the chain built from `root`.  The first data
level has chain index `numDataLevels root - 1`; the terminal level has
chain index 0. -/
def numDataLevels (root : ParameterSet) : Nat :=
  (dataChain root).length

/-- Modelled from the spec: a modulus-chain node owns one parameter set, a
level index (root = highest, decreasing toward 0) and an `is_key_level`
flag that is true only for the root. -/
structure ChainNode where
  parms : ParameterSet
  levelIndex : Nat
  is_key_level : Bool
deriving DecidableEq

/-- Modelled from the spec: the fingerprint of a chain node, suitable for
equality comparison; modelled by the node's normalized parameter set. -/
def fingerprint (n : ChainNode) : ParameterSet :=
  n.parms

/-- Modelled from the spec: the root (key-level) node of the chain built
from `root`; its level index is above every data level and it alone
carries the special last prime. -/
def keyContextData (root : ParameterSet) : ChainNode :=
  ⟨root, numDataLevels root, true⟩

/-- Modelled from the spec: the full chain of nodes, root (key level)
first, then the data levels with decreasing level indices down to 0. -/
def chainNodes (root : ParameterSet) : List ChainNode :=
  keyContextData root ::
    (dataChain root).enum.map
      (fun p => ⟨p.2, numDataLevels root - 1 - p.1, false⟩)

/-- Modelled from the spec: key material tagged with the fingerprint of the
level at which it was generated. -/
structure Key where
  parmsId : ParameterSet
deriving DecidableEq

/-- Modelled from the spec: the key material produced by one key
generator: secret key, public key and relinearization key. -/
structure KeyMaterial where
  secretKey : Key
  publicKey : Key
  relinKey : Key
deriving DecidableEq

/-- Modelled from the spec: the key generator derives all key material at
the top (root/key) level, each key tagged with the root node's
fingerprint. -/
def keyGenerate (root : ParameterSet) : KeyMaterial :=
  let fp := fingerprint (keyContextData root)
  ⟨⟨fp⟩, ⟨fp⟩, ⟨fp⟩⟩

/-- Error taxonomy of the evaluator, from the spec's error handling
design. -/
inductive EvalError where
  | chainExhausted
  | relinearizationError
  | levelMismatch
  | scaleMismatch
deriving DecidableEq

/-- A plaintext polynomial of the exact scheme: integer coefficients
modulo the plaintext modulus, lowest degree first. -/
abbrev PlainPoly := List Nat

/-- Coefficientwise sum of two plaintext polynomials modulo `t`. -/
def polyAdd (t : Nat) (a b : PlainPoly) : PlainPoly :=
  (List.range (max a.length b.length)).map (fun k => (a.getD k 0 + b.getD k 0) % t)

/-- Coefficient `k` of the plain (unreduced) product of two polynomials. -/
def convCoeff (a b : PlainPoly) (k : Nat) : Nat :=
  (List.range (k + 1)).foldl (fun acc i => acc + a.getD i 0 * b.getD (k - i) 0) 0

/-- Plain (unreduced) product of two polynomials. -/
def polyMulRaw (a b : PlainPoly) : PlainPoly :=
  (List.range (a.length + b.length - 1)).map (convCoeff a b)

/-- Coefficient `k` after negacyclic reduction modulo `X ^ N + 1`: the
alternating sum of the coefficients at `k`, `k + N`, `k + 2 * N`, .... -/
def negaCoeff (N : Nat) (c : PlainPoly) (k : Nat) : Int :=
  (List.range (c.length / N + 1)).foldl
    (fun acc j => acc + (-1) ^ j * (c.getD (k + j * N) 0 : Int)) 0

/-- Product of two plaintext polynomials in the plaintext ring
`Z_t[X] / (X ^ N + 1)`. -/
def polyMul (N t : Nat) (a b : PlainPoly) : PlainPoly :=
  (List.range (min N (a.length + b.length - 1))).map
    (fun k => ((negaCoeff N (polyMulRaw a b) k) % (t : Int)).toNat)

/-- Modelled from the spec: an exact-scheme (BFV) ciphertext is observed
through its chain level index, its size (number of polynomials, at least
2) and the plaintext it decrypts to while noise budget remains (noise is
abstracted away: the spec makes decryption exact until the budget reaches
zero). -/
structure BFVCiphertext where
  level : Nat
  size : Nat
  plain : PlainPoly
deriving DecidableEq

/-- Modelled from the spec: the context data a BFV pipeline needs — ring
degree, plaintext modulus, and the number of data levels of its modulus
chain. -/
structure BFVContext where
  degree : Nat
  plainMod : Nat
  levels : Nat
deriving DecidableEq

/-- The BFV context induced by a root parameter set. -/
def bfvContextOf (root : ParameterSet) : BFVContext :=
  ⟨root.polyModulusDegree, root.plainModulus, numDataLevels root⟩

/-- Modelled from the spec: encryption produces a size-2 ciphertext at the
first (highest) data level, decrypting to the encoded plaintext. -/
def bfvEncrypt (ctx : BFVContext) (p : PlainPoly) : BFVCiphertext :=
  ⟨ctx.levels - 1, 2, p.map (· % ctx.plainMod)⟩

/-- Modelled from the spec: homomorphic multiplication requires operands at
the same level, leaves the level unchanged, produces size
`M + N - 1` and multiplies the underlying plaintexts in the plaintext
ring. -/
def bfvMultiply (ctx : BFVContext) (c1 c2 : BFVCiphertext) :
    Except EvalError BFVCiphertext :=
  if c1.level = c2.level then
    .ok ⟨c1.level, c1.size + c2.size - 1,
         polyMul ctx.degree ctx.plainMod c1.plain c2.plain⟩
  else
    .error .levelMismatch

/-- Modelled from the spec: squaring is multiplication of a ciphertext by
itself. -/
def bfvSquare (ctx : BFVContext) (c : BFVCiphertext) :
    Except EvalError BFVCiphertext :=
  bfvMultiply ctx c c

/-- Modelled from the spec: adding a plaintext leaves level and size
unchanged and adds into the underlying plaintext. -/
def bfvAddPlain (ctx : BFVContext) (c : BFVCiphertext) (p : PlainPoly) :
    BFVCiphertext :=
  { c with plain := polyAdd ctx.plainMod c.plain p }

/-- Modelled from the spec: relinearization requires size exactly 3 (the
degree supported by standard relinearization keys), produces size 2, and
fails with a relinearization error otherwise. -/
def relinearize (c : BFVCiphertext) : Except EvalError BFVCiphertext :=
  if c.size = 3 then .ok { c with size := 2 } else .error .relinearizationError

/-- Modelled from the spec: modulus switching drops the ciphertext to the
next lower level and fails with `chainExhausted` at the terminal level
(index 0); the underlying plaintext is preserved. -/
def mod_switch_to_next (c : BFVCiphertext) : Except EvalError BFVCiphertext :=
  if c.level = 0 then .error .chainExhausted
  else .ok { c with level := c.level - 1 }

/-- `k`-fold repetition of `mod_switch_to_next`. -/
def modSwitchIter : Nat → BFVCiphertext → Except EvalError BFVCiphertext
  | 0, c => .ok c
  | k + 1, c => (mod_switch_to_next c).bind (modSwitchIter k)

/-- Modelled from the spec: decryption recovers the underlying plaintext
(exactly, while the noise budget is positive). -/
def bfvDecrypt (c : BFVCiphertext) : PlainPoly :=
  c.plain

/-- Modelled from the spec: the context data a CKKS pipeline needs — the
ring degree and the data-level primes `q_0, ..., q_(L-1)`, where data
level `i` uses the moduli `q_0 .. q_i`, so rescaling from level `i` drops
`q_i`.  These are the root primes with the trailing special prime
removed. -/
structure CKKSContext where
  degree : Nat
  dataPrimes : List Nat
deriving DecidableEq

/-- Number of data levels of a CKKS context. -/
def ckksLevels (ctx : CKKSContext) : Nat :=
  ctx.dataPrimes.length

/-- The prime dropped when stepping down from data level `i`, as a
rational. -/
def primeAt (ctx : CKKSContext) (i : Nat) : ℚ :=
  (ctx.dataPrimes.getD i 1 : ℚ)

/-- Modelled from the spec: an approximate-scheme plaintext carries its
level, its scale and the scaled slot values (the encoded values times the
scale; rounding is abstracted away). -/
structure CKKSPlaintext where
  level : Nat
  scale : ℚ
  payload : List ℚ
deriving DecidableEq

/-- Modelled from the spec: a CKKS ciphertext is observed through its
level index, its size, its scale, and the scaled slot values it decrypts
to. -/
structure CKKSCiphertext where
  level : Nat
  size : Nat
  scale : ℚ
  payload : List ℚ
deriving DecidableEq

/-- Modelled from the spec: the CKKS encoder multiplies each input value
by the scale and zero-pads the vector to the full slot count
(`degree / 2`). -/
def ckksEncode (ctx : CKKSContext) (v : List ℚ) (scale : ℚ) (level : Nat) :
    CKKSPlaintext :=
  ⟨level, scale, (v ++ List.replicate (ctx.degree / 2 - v.length) 0).map (· * scale)⟩

/-- Modelled from the spec: the CKKS encoder applied to a single scalar
puts that value in every slot. -/
def ckksEncodeConst (ctx : CKKSContext) (x : ℚ) (scale : ℚ) (level : Nat) :
    CKKSPlaintext :=
  ⟨level, scale, List.replicate (ctx.degree / 2) (x * scale)⟩

/-- Modelled from the spec: encryption produces a size-2 ciphertext at the
plaintext's level with the scale copied through unchanged. -/
def ckksEncrypt (p : CKKSPlaintext) : CKKSCiphertext :=
  ⟨p.level, 2, p.scale, p.payload⟩

/-- Modelled from the spec: ciphertext-ciphertext multiplication requires
matching levels, leaves the level unchanged, produces size `M + N - 1`,
and multiplies the scales (and the scaled slot values). -/
def ckksMultiply (c1 c2 : CKKSCiphertext) : Except EvalError CKKSCiphertext :=
  if c1.level = c2.level then
    .ok ⟨c1.level, c1.size + c2.size - 1, c1.scale * c2.scale,
         List.zipWith (· * ·) c1.payload c2.payload⟩
  else
    .error .levelMismatch

/-- Modelled from the spec: squaring is multiplication of a ciphertext by
itself. -/
def ckksSquare (c : CKKSCiphertext) : Except EvalError CKKSCiphertext :=
  ckksMultiply c c

/-- Modelled from the spec: ciphertext-plaintext multiplication requires a
plaintext at the ciphertext's level, leaves level and size unchanged, and
multiplies the scales. -/
def ckksMultiplyPlain (c : CKKSCiphertext) (p : CKKSPlaintext) :
    Except EvalError CKKSCiphertext :=
  if c.level = p.level then
    .ok ⟨c.level, c.size, c.scale * p.scale,
         List.zipWith (· * ·) c.payload p.payload⟩
  else
    .error .levelMismatch

/-- Modelled from the spec: relinearization of a size-3 CKKS ciphertext
back to size 2; level, scale and contents are unchanged. -/
def ckksRelinearize (c : CKKSCiphertext) : Except EvalError CKKSCiphertext :=
  if c.size = 3 then .ok { c with size := 2 } else .error .relinearizationError

/-- Modelled from the spec: `rescaleToNext` performs the same level drop
as modulus switching but additionally divides the scale (and the scaled
contents) by the exact value of the prime dropped at that level step;
fails with `chainExhausted` at the terminal level. -/
def rescale_to_next (ctx : CKKSContext) (c : CKKSCiphertext) :
    Except EvalError CKKSCiphertext :=
  if c.level = 0 then .error .chainExhausted
  else
    .ok ⟨c.level - 1, c.size, c.scale / primeAt ctx c.level,
         c.payload.map (· / primeAt ctx c.level)⟩

/-- Modelled from the spec: modulus switching for the approximate scheme
drops the ciphertext to the next lower level, leaving size, scale and
contents unchanged; fails with `chainExhausted` at the terminal level. -/
def ckksModSwitchToNext (c : CKKSCiphertext) : Except EvalError CKKSCiphertext :=
  if c.level = 0 then .error .chainExhausted
  else .ok { c with level := c.level - 1 }

/-- `k`-fold repetition of `rescale_to_next`. -/
def rescaleIter (ctx : CKKSContext) :
    Nat → CKKSCiphertext → Except EvalError CKKSCiphertext
  | 0, c => .ok c
  | k + 1, c => (rescale_to_next ctx c).bind (rescaleIter ctx k)

/-- Modelled from the spec: decryption yields a plaintext at the
ciphertext's level and scale. -/
def ckksDecrypt (c : CKKSCiphertext) : CKKSPlaintext :=
  ⟨c.level, c.scale, c.payload⟩

/-- Modelled from the spec: decoding divides the slot values by the
plaintext's recorded scale. -/
def ckksDecode (p : CKKSPlaintext) : List ℚ :=
  p.payload.map (· / p.scale)

/-- The values a decrypt-then-decode of a ciphertext returns. -/
def ckksDecodeValues (c : CKKSCiphertext) : List ℚ :=
  ckksDecode (ckksDecrypt c)

/-- Source: comparison.ipynb, `divByPo2` — divides the encrypted value by
`2 ^ power` by multiplying the ciphertext's scale field by `2 ^ power`. -/
def divByPo2 (cipher : CKKSCiphertext) (power : Nat) : CKKSCiphertext :=
  { cipher with scale := cipher.scale * 2 ^ power }

/-- Source: comparison.ipynb, `bad_copy` — copies a ciphertext by
multiplying it by an encoding of 1 at the given scale and rescaling,
consuming one ciphertext level. -/
def bad_copy (ctx : CKKSContext) (cipher : CKKSCiphertext) (scale : ℚ) :
    Except EvalError CKKSCiphertext := do
  let dummy_plain := ckksEncodeConst ctx 1 scale cipher.level
  let copy ← ckksMultiplyPlain cipher dummy_plain
  rescale_to_next ctx copy

/-- Modelled from the spec: the security-standard table
`maxModulusBitCount(polynomialDegree, 128-bit security)`, the values
recorded in the source (1_bfv_basics.ipynb parameter table); 0 for
degrees outside the table. -/
def maxModulusBitCount (degree : Nat) : Nat :=
  if degree = 1024 then 27
  else if degree = 2048 then 54
  else if degree = 4096 then 109
  else if degree = 8192 then 218
  else if degree = 16384 then 438
  else if degree = 32768 then 881
  else 0

/-- Modelled from the spec: the human-readable parameter validation
message produced on context construction; the two strings are taken
verbatim from the recorded outputs in 1_bfv_basics.ipynb ("valid" on
success, and the security-standard message when security enforcement is
requested and the total modulus bit-length exceeds the maximum allowed
for the polynomial degree). -/
def parameters_error_message (ps : ParameterSet) (enforceStandard : Bool) :
    String :=
  if enforceStandard &&
      decide (maxModulusBitCount ps.polyModulusDegree <
        totalBitCount ps.coeffModulus) then
    "parameters are not compliant with HomomorphicEncryption.org security standard"
  else
    "valid"

/-- Modelled from the spec: the default modulus for degree 4096 at
128-bit security — primes whose bit sizes total 109 bits (36 + 36 + 37),
matching the recorded bound for degree 4096. -/
def defaultBFV4096 : List Nat :=
  [68719403009, 68719230977, 137438822401]

/-- Modelled from the spec: the integer batching encoder packs a vector of
up to `N` unsigned integers into the `N` slots of a plaintext, reducing
each slot modulo the plaintext modulus `t` and zero-padding; a longer
vector is an error.  The number-theoretic transform between slot values
and polynomial coefficients is a bijection internal to the external
algebra layer, so the plaintext is modelled by its slot values. -/
def batchEncode (N t : Nat) (v : List Nat) : Option PlainPoly :=
  if v.length ≤ N then
    some ((v ++ List.replicate (N - v.length) 0).map (· % t))
  else
    none

/-- Modelled from the spec: batching decode returns the full length-`N`
slot vector of the plaintext (the inverse transform of the encoding). -/
def batchDecodeUint64 (p : PlainPoly) : List Nat :=
  p

/-- Concrete integer-scheme scenario of 1_bfv_basics.ipynb, with the
degree-4096 ring and plaintext modulus 1024 over an arbitrary modulus
chain `qs`: encrypt the polynomial representing 6, square, relinearize,
add the plaintext 1, decrypt.  Returns the decrypted polynomial together
with the ciphertext size before and after relinearization. -/
def bfvScenarioDecrypt (qs : List Nat) :
    Except EvalError (PlainPoly × Nat × Nat) := do
  let ctx := bfvContextOf ⟨4096, qs, 1024, .integer⟩
  let x_encrypted := bfvEncrypt ctx [6]
  let x_squared ← bfvSquare ctx x_encrypted
  let sizeBefore := x_squared.size
  let x_relin ← relinearize x_squared
  let sizeAfter := x_relin.size
  let x_sq_plus_one := bfvAddPlain ctx x_relin [1]
  pure (bfvDecrypt x_sq_plus_one, sizeBefore, sizeAfter)

/-- The comparison.ipynb scale experiment: encrypt fresh at scale `S` at
the first data level, make a `bad_copy` (one rescale), switch the
original down one level, multiply the copy by the original, rescale once
more, and return the resulting scale field. -/
def rescaledProductScale (ctx : CKKSContext) (S : ℚ) (v : List ℚ) :
    Except EvalError ℚ := do
  let x_enc := ckksEncrypt (ckksEncode ctx v S (ckksLevels ctx - 1))
  let x_copy ← bad_copy ctx x_enc S
  let x_switched ← ckksModSwitchToNext x_enc
  let test ← ckksMultiply x_copy x_switched
  let rescaled ← rescale_to_next ctx test
  pure rescaled.scale

/-- Concrete approximate-scheme scenario of the CKKSEncoder notebook:
encode `[0.0, 1.1, 2.2, 3.3]` at scale `2 ^ 30` (zero-padded to the full
slot count), encrypt, square, relinearize; return the resulting
ciphertext. -/
def ckksSquareScenario (ctx : CKKSContext) : Except EvalError CKKSCiphertext := do
  let plain := ckksEncode ctx [0, 11/10, 22/10, 33/10] (2 ^ 30) (ckksLevels ctx - 1)
  let encrypted := ckksEncrypt plain
  let squared ← ckksSquare encrypted
  ckksRelinearize squared

/-- Recorded run output of the CKKSEncoder notebook (first four decoded
slots after encode, encrypt, square, relinearize, decrypt, decode), as
exact decimals. -/
def recordedSquaredOutput : List ℚ :=
  [-5068293803494718 / 10 ^ 28, 1210001494082472 / 10 ^ 15,
   4840001080295021 / 10 ^ 15, 10890001288345392 / 10 ^ 15]

/-- The elementwise squares of the input vector `[0.0, 1.1, 2.2, 3.3]` of
the CKKSEncoder notebook. -/
def expectedSquaredOutput : List ℚ :=
  [0, 121 / 100, 484 / 100, 1089 / 100]

theorem modSwitchIter_ok (k : Nat) :
    ∀ c : BFVCiphertext, k ≤ c.level →
      modSwitchIter k c = .ok ⟨c.level - k, c.size, c.plain⟩ := by
  induction k with
  | zero => intro c _; rfl
  | succ k ih =>
    intro c hk
    have hne : c.level ≠ 0 := by omega
    have hstep : mod_switch_to_next c = .ok ⟨c.level - 1, c.size, c.plain⟩ := by
      unfold mod_switch_to_next
      rw [if_neg hne]
    have hrec := ih ⟨c.level - 1, c.size, c.plain⟩ (show k ≤ c.level - 1 by omega)
    have harith : c.level - 1 - k = c.level - (k + 1) := by omega
    calc modSwitchIter (k + 1) c
        = (mod_switch_to_next c).bind (modSwitchIter k) := rfl
      _ = modSwitchIter k ⟨c.level - 1, c.size, c.plain⟩ := by rw [hstep]; rfl
      _ = .ok ⟨c.level - 1 - k, c.size, c.plain⟩ := hrec
      _ = .ok ⟨c.level - (k + 1), c.size, c.plain⟩ := by rw [harith]

theorem rescaleIter_ok (ctx : CKKSContext) (k : Nat) :
    ∀ d : CKKSCiphertext, k ≤ d.level →
      ∃ d', rescaleIter ctx k d = .ok d' ∧ d'.level = d.level - k ∧
        d'.size = d.size := by
  induction k with
  | zero => intro d _; exact ⟨d, rfl, by omega, rfl⟩
  | succ k ih =>
    intro d hk
    have hne : d.level ≠ 0 := by omega
    have hstep : rescale_to_next ctx d =
        .ok ⟨d.level - 1, d.size, d.scale / primeAt ctx d.level,
             d.payload.map (· / primeAt ctx d.level)⟩ := by
      unfold rescale_to_next
      rw [if_neg hne]
    obtain ⟨d', h1, h2, h3⟩ :=
      ih ⟨d.level - 1, d.size, d.scale / primeAt ctx d.level,
          d.payload.map (· / primeAt ctx d.level)⟩
        (show k ≤ d.level - 1 by omega)
    refine ⟨d', ?_, by simp at h2 ⊢; omega, h3⟩
    calc rescaleIter ctx (k + 1) d
        = (rescale_to_next ctx d).bind (rescaleIter ctx k) := rfl
      _ = _ := by rw [hstep]; exact h1

/-- Claim C1: ciphertext size invariant — fresh encryption yields size 2
(both schemes); homomorphic multiplication of size-`M` by size-`N` yields
size `M + N - 1` (so squaring a size-2 ciphertext yields size 3 and
multiplying two size-3 ciphertexts yields size 5); and relinearization of
a size-3 ciphertext returns it to size 2. -/
theorem c1_ciphertext_size_invariant :
    (∀ ctx p, (bfvEncrypt ctx p).size = 2) ∧
    (∀ p, (ckksEncrypt p).size = 2) ∧
    (∀ ctx c1 c2 c', bfvMultiply ctx c1 c2 = .ok c' →
        c'.size = c1.size + c2.size - 1) ∧
    (∀ c1 c2 c', ckksMultiply c1 c2 = .ok c' →
        c'.size = c1.size + c2.size - 1) ∧
    (∀ ctx c c', c.size = 2 → bfvSquare ctx c = .ok c' → c'.size = 3) ∧
    (∀ ctx c1 c2 c', c1.size = 3 → c2.size = 3 →
        bfvMultiply ctx c1 c2 = .ok c' → c'.size = 5) ∧
    (∀ c : BFVCiphertext, c.size = 3 →
        ∃ c', relinearize c = .ok c' ∧ c'.size = 2) := by
  have hmul : ∀ ctx c1 c2 c', bfvMultiply ctx c1 c2 = .ok c' →
      c'.size = c1.size + c2.size - 1 := by
    intro ctx c1 c2 c' h
    unfold bfvMultiply at h
    split at h
    · injection h with h; rw [← h]
    · cases h
  have hcmul : ∀ c1 c2 c', ckksMultiply c1 c2 = .ok c' →
      c'.size = c1.size + c2.size - 1 := by
    intro c1 c2 c' h
    unfold ckksMultiply at h
    split at h
    · injection h with h; rw [← h]
    · cases h
  refine ⟨fun ctx p => rfl, fun p => rfl, hmul, hcmul, ?_, ?_, ?_⟩
  · intro ctx c c' hc h
    have := hmul ctx c c c' h
    omega
  · intro ctx c1 c2 c' h1 h2 h
    have := hmul ctx c1 c2 c' h
    omega
  · intro c hc
    exact ⟨{ c with size := 2 }, by unfold relinearize; rw [if_pos hc], rfl⟩

/-- Witness for the claim C1 theorem at concrete inputs. -/
theorem c1_ciphertext_size_invariant_witness :
    ((⟨1, 5, [2]⟩ : BFVCiphertext).size =
      (⟨1, 3, [3]⟩ : BFVCiphertext).size + (⟨1, 3, [3]⟩ : BFVCiphertext).size - 1) ∧
    (∃ c', relinearize (⟨1, 3, [36]⟩ : BFVCiphertext) = .ok c' ∧ c'.size = 2) :=
  ⟨c1_ciphertext_size_invariant.2.2.1 ⟨8, 7, 2⟩ ⟨1, 3, [3]⟩ ⟨1, 3, [3]⟩ ⟨1, 5, [2]⟩
      rfl,
   c1_ciphertext_size_invariant.2.2.2.2.2.2 ⟨1, 3, [36]⟩ rfl⟩

/-- Claim C9: `divByPo2` multiplies only the ciphertext's scale field by
`2 ^ power` — level, size and polynomial contents are unchanged — so a
subsequent decrypt-and-decode returns the originally encrypted values
divided by `2 ^ power`. -/
theorem c9_divByPo2_frame (c : CKKSCiphertext) (power : Nat) :
    (divByPo2 c power).level = c.level ∧
    (divByPo2 c power).size = c.size ∧
    (divByPo2 c power).payload = c.payload ∧
    (divByPo2 c power).scale = c.scale * 2 ^ power ∧
    ckksDecodeValues (divByPo2 c power) =
      (ckksDecodeValues c).map (· / 2 ^ power) := by
  refine ⟨rfl, rfl, rfl, rfl, ?_⟩
  simp [ckksDecodeValues, ckksDecode, ckksDecrypt, divByPo2, div_div]

/-- Witness for the claim C9 theorem at a concrete input. -/
theorem c9_divByPo2_frame_witness :
    (divByPo2 ⟨1, 2, 3, [6]⟩ 2).level = (⟨1, 2, 3, [6]⟩ : CKKSCiphertext).level ∧
    (divByPo2 ⟨1, 2, 3, [6]⟩ 2).size = (⟨1, 2, 3, [6]⟩ : CKKSCiphertext).size ∧
    (divByPo2 ⟨1, 2, 3, [6]⟩ 2).payload =
      (⟨1, 2, 3, [6]⟩ : CKKSCiphertext).payload ∧
    (divByPo2 ⟨1, 2, 3, [6]⟩ 2).scale =
      (⟨1, 2, 3, [6]⟩ : CKKSCiphertext).scale * 2 ^ 2 ∧
    ckksDecodeValues (divByPo2 ⟨1, 2, 3, [6]⟩ 2) =
      (ckksDecodeValues ⟨1, 2, 3, [6]⟩).map (· / 2 ^ 2) :=
  c9_divByPo2_frame ⟨1, 2, 3, [6]⟩ 2

/-- Claim C10: modulus switching an approximate-scheme ciphertext that is
not at the terminal level moves it exactly one level down the chain while
leaving size, scale and contents exactly unchanged. -/
theorem c10_ckks_modswitch_frame (c : CKKSCiphertext) (h : c.level ≠ 0) :
    ckksModSwitchToNext c = .ok ⟨c.level - 1, c.size, c.scale, c.payload⟩ := by
  unfold ckksModSwitchToNext
  rw [if_neg h]

/-- Witness for the claim C10 theorem at a concrete input. -/
theorem c10_ckks_modswitch_frame_witness :
    (⟨2, 2, 3, [6]⟩ : CKKSCiphertext).level ≠ 0 ∧
    ckksModSwitchToNext ⟨2, 2, 3, [6]⟩ = .ok ⟨1, 2, 3, [6]⟩ :=
  ⟨by decide, c10_ckks_modswitch_frame ⟨2, 2, 3, [6]⟩ (by decide)⟩

/-- Claim C3: starting from the first (highest) data level, `k` level
drops land at chain index `level - k`, so the terminal level (index 0) is
reached in exactly (chain length - 1) steps, for the exact scheme
(`mod_switch_to_next`) and the approximate scheme (`rescale_to_next`);
one further call fails with `chainExhausted`; and no modelled operation
ever moves a ciphertext to a higher level. -/
theorem c3_chain_walk :
    (∀ root : ParameterSet, ∀ c : BFVCiphertext,
        c.level = numDataLevels root - 1 → ∀ k ≤ numDataLevels root - 1,
        modSwitchIter k c = .ok ⟨numDataLevels root - 1 - k, c.size, c.plain⟩) ∧
    (∀ root : ParameterSet, ∀ c : BFVCiphertext,
        c.level = numDataLevels root - 1 →
        (modSwitchIter (numDataLevels root - 1) c).bind mod_switch_to_next =
          .error .chainExhausted) ∧
    (∀ ctx : CKKSContext, ∀ d : CKKSCiphertext,
        d.level = ckksLevels ctx - 1 →
        ∃ d', rescaleIter ctx (ckksLevels ctx - 1) d = .ok d' ∧ d'.level = 0 ∧
          rescale_to_next ctx d' = .error .chainExhausted) ∧
    (∀ c c' : BFVCiphertext, mod_switch_to_next c = .ok c' → c'.level < c.level) ∧
    (∀ ctx : CKKSContext, ∀ d d' : CKKSCiphertext,
        rescale_to_next ctx d = .ok d' → d'.level < d.level) ∧
    (∀ d d' : CKKSCiphertext, ckksModSwitchToNext d = .ok d' → d'.level < d.level) ∧
    (∀ ctx c1 c2 c', bfvMultiply ctx c1 c2 = .ok c' →
        c'.level ≤ max c1.level c2.level) ∧
    (∀ ctx c p, (bfvAddPlain ctx c p).level = c.level) ∧
    (∀ c c' : BFVCiphertext, relinearize c = .ok c' → c'.level = c.level) ∧
    (∀ c1 c2 c', ckksMultiply c1 c2 = .ok c' → c'.level ≤ max c1.level c2.level) ∧
    (∀ c p c', ckksMultiplyPlain c p = .ok c' → c'.level = c.level) ∧
    (∀ c c' : CKKSCiphertext, ckksRelinearize c = .ok c' → c'.level = c.level) ∧
    (∀ c power, (divByPo2 c power).level = c.level) := by
  have hwalk : ∀ root : ParameterSet, ∀ c : BFVCiphertext,
      c.level = numDataLevels root - 1 → ∀ k ≤ numDataLevels root - 1,
      modSwitchIter k c = .ok ⟨numDataLevels root - 1 - k, c.size, c.plain⟩ := by
    intro root c hc k hk
    rw [← hc] at hk ⊢
    exact modSwitchIter_ok k c hk
  refine ⟨hwalk, ?_, ?_, ?_, ?_, ?_, ?_, fun ctx c p => rfl, ?_, ?_, ?_, ?_,
    fun c power => rfl⟩
  · intro root c hc
    rw [hwalk root c hc (numDataLevels root - 1) le_rfl]
    show mod_switch_to_next _ = _
    simp [mod_switch_to_next, Nat.sub_self]
  · intro ctx d hd
    obtain ⟨d', h1, h2, _⟩ := rescaleIter_ok ctx (ckksLevels ctx - 1) d (by omega)
    refine ⟨d', h1, by omega, ?_⟩
    unfold rescale_to_next
    rw [if_pos (by omega)]
  · intro c c' h
    unfold mod_switch_to_next at h
    split at h
    · cases h
    · injection h with h
      rw [← h]
      simp only
      omega
  · intro ctx d d' h
    unfold rescale_to_next at h
    split at h
    · cases h
    · injection h with h
      rw [← h]
      simp only
      omega
  · intro d d' h
    unfold ckksModSwitchToNext at h
    split at h
    · cases h
    · injection h with h
      rw [← h]
      simp only
      omega
  · intro ctx c1 c2 c' h
    unfold bfvMultiply at h
    split at h
    · injection h with h
      rw [← h]
      simp only
      omega
    · cases h
  · intro c c' h
    unfold relinearize at h
    split at h
    · injection h with h
      rw [← h]
    · cases h
  · intro c1 c2 c' h
    unfold ckksMultiply at h
    split at h
    · injection h with h
      rw [← h]
      simp only
      omega
    · cases h
  · intro c p c' h
    unfold ckksMultiplyPlain at h
    split at h
    · injection h with h
      rw [← h]
    · cases h
  · intro c c' h
    unfold ckksRelinearize at h
    split at h
    · injection h with h
      rw [← h]
    · cases h

/-- Witness for the claim C3 theorem: a 5-prime root gives 4 data levels;
from chain index 3 three switches reach index 0, a fourth fails. -/
theorem c3_chain_walk_witness :
    (⟨3, 2, [6]⟩ : BFVCiphertext).level =
      numDataLevels ⟨8192, [13, 11, 7, 5, 3], 3, .integer⟩ - 1 ∧
    modSwitchIter 3 ⟨3, 2, [6]⟩ = .ok ⟨0, 2, [6]⟩ ∧
    (modSwitchIter 3 (⟨3, 2, [6]⟩ : BFVCiphertext)).bind mod_switch_to_next =
      .error .chainExhausted ∧
    (∃ d', rescaleIter ⟨16384, [5, 7, 11]⟩ 2 ⟨2, 2, 1, []⟩ = .ok d' ∧
      d'.level = 0 ∧
      rescale_to_next ⟨16384, [5, 7, 11]⟩ d' = .error .chainExhausted) :=
  ⟨by decide,
   c3_chain_walk.1 ⟨8192, [13, 11, 7, 5, 3], 3, .integer⟩ ⟨3, 2, [6]⟩ (by decide)
     3 (by decide),
   c3_chain_walk.2.1 ⟨8192, [13, 11, 7, 5, 3], 3, .integer⟩ ⟨3, 2, [6]⟩ (by decide),
   c3_chain_walk.2.2.1 ⟨16384, [5, 7, 11]⟩ ⟨2, 2, 1, []⟩ rfl⟩

/-- Claim C4: with the degree-4096 ring, plaintext modulus 1024 and any
modulus chain, encrypting the polynomial representing 6, squaring,
relinearizing and adding the plaintext 1 decrypts to the polynomial
representing 37 (0x25), the ciphertext size reading 3 before
relinearization and 2 after. -/
theorem c4_bfv_scenario (qs : List Nat) :
    bfvScenarioDecrypt qs = .ok ([37], 3, 2) := by
  have h36 : polyMul 4096 1024 [6 % 1024] [6 % 1024] = [36] := by decide
  have h37 : polyAdd 1024 [36] [1] = [37] := by decide
  simp [bfvScenarioDecrypt, bfvContextOf, bfvEncrypt, bfvSquare, bfvMultiply,
    relinearize, bfvAddPlain, bfvDecrypt, h36, h37, bind, Except.bind,
    Functor.map, Except.map, pure, Except.pure]

/-- Witness for the claim C4 theorem at a concrete modulus chain. -/
theorem c4_bfv_scenario_witness :
    bfvScenarioDecrypt [68719403009, 68719230977, 137438822401] =
      .ok ([37], 3, 2) :=
  c4_bfv_scenario [68719403009, 68719230977, 137438822401]

/-- Claim C2: approximate-scheme scale arithmetic — multiplication
(ciphertext-ciphertext and ciphertext-plaintext) multiplies the scales;
`rescale_to_next` divides the scale by the exact value of the prime
dropped at that level step; and multiplying a fresh scale-`S` ciphertext
by a once-rescaled copy and rescaling once more gives scale
`S ^ 3 / P1 / P2` for the two dropped primes. -/
theorem c2_scale_arithmetic :
    (∀ c1 c2 c', ckksMultiply c1 c2 = .ok c' → c'.scale = c1.scale * c2.scale) ∧
    (∀ c p c', ckksMultiplyPlain c p = .ok c' → c'.scale = c.scale * p.scale) ∧
    (∀ ctx c c', rescale_to_next ctx c = .ok c' →
        c'.scale = c.scale / primeAt ctx c.level) ∧
    (∀ ctx S v, 3 ≤ ckksLevels ctx →
        rescaledProductScale ctx S v =
          .ok (S ^ 3 / primeAt ctx (ckksLevels ctx - 1) /
            primeAt ctx (ckksLevels ctx - 2))) := by
  refine ⟨?_, ?_, ?_, ?_⟩
  · intro c1 c2 c' h
    unfold ckksMultiply at h
    split at h
    · injection h with h; rw [← h]
    · cases h
  · intro c p c' h
    unfold ckksMultiplyPlain at h
    split at h
    · injection h with h; rw [← h]
    · cases h
  · intro ctx c c' h
    unfold rescale_to_next at h
    split at h
    · cases h
    · injection h with h; rw [← h]
  · intro ctx S v h3
    obtain ⟨K, hK⟩ : ∃ K, ckksLevels ctx = K + 3 := ⟨ckksLevels ctx - 3, by omega⟩
    have h1 : ckksLevels ctx - 1 = K + 2 := by omega
    have h2 : ckksLevels ctx - 2 = K + 1 := by omega
    have hsub : K + 2 - 1 = K + 1 := by omega
    have hA : ¬ K + 2 = 0 := by omega
    have hB : ¬ K + 1 = 0 := by omega
    unfold rescaledProductScale bad_copy
    rw [h1, h2]
    simp only [ckksEncode, ckksEncodeConst, ckksEncrypt, ckksMultiplyPlain,
      ckksMultiply, ckksModSwitchToNext, rescale_to_next, hsub, hA, hB,
      if_false, if_true, eq_self_iff_true, bind, Except.bind, pure, Except.pure,
      if_neg hA, if_neg hB]
    simp only [Except.ok.injEq]
    ring

/-- Witness for the claim C2 theorem at a concrete three-level context. -/
theorem c2_scale_arithmetic_witness :
    3 ≤ ckksLevels ⟨16384, [5, 7, 11]⟩ ∧
    rescaledProductScale ⟨16384, [5, 7, 11]⟩ 4 [] = .ok ((4 : ℚ) ^ 3 / 11 / 7) := by
  refine ⟨by decide, ?_⟩
  have h := c2_scale_arithmetic.2.2.2 ⟨16384, [5, 7, 11]⟩ 4 [] (by decide)
  simpa [primeAt, ckksLevels] using h

/-- Claim C6: integer-encoder round trip — for batching-compatible
parameters and any vector of length at most `N`, decoding the encoding
returns the vector reduced modulo the plaintext modulus (zero-padded to
the `N` slots), with no encryption involved. -/
theorem c6_batch_roundtrip (N t : Nat) (v : List Nat)
    (_hbatch : t % (2 * N) = 1) (hlen : v.length ≤ N) :
    ∃ p, batchEncode N t v = some p ∧
      batchDecodeUint64 p = v.map (· % t) ++ List.replicate (N - v.length) 0 ∧
      (batchDecodeUint64 p).take v.length = v.map (· % t) := by
  refine ⟨(v ++ List.replicate (N - v.length) 0).map (· % t), ?_, ?_, ?_⟩
  · unfold batchEncode
    rw [if_pos hlen]
  · unfold batchDecodeUint64
    simp [List.map_append, List.map_replicate, Nat.zero_mod]
  · unfold batchDecodeUint64
    rw [List.map_append]
    exact List.take_left' (List.length_map v _)

/-- Witness for the claim C6 theorem with the batching prime recorded in
the source (degree 8192, plaintext modulus 1032193). -/
theorem c6_batch_roundtrip_witness :
    1032193 % (2 * 8192) = 1 ∧
    ([0, 1, 2, 3] : List Nat).length ≤ 8192 ∧
    ∃ p, batchEncode 8192 1032193 [0, 1, 2, 3] = some p ∧
      batchDecodeUint64 p = [0, 1, 2, 3].map (· % 1032193) ++
        List.replicate (8192 - ([0, 1, 2, 3] : List Nat).length) 0 ∧
      (batchDecodeUint64 p).take ([0, 1, 2, 3] : List Nat).length =
        [0, 1, 2, 3].map (· % 1032193) :=
  ⟨by decide, by decide,
   c6_batch_roundtrip 8192 1032193 [0, 1, 2, 3] (by decide) (by decide)⟩

/-- Claim C7 counterexample: at the failing parameter set recorded in the
source (degree lowered to 2048 while keeping the degree-4096 default
modulus), the validation message differs from the string the claim
quotes, although the parameters do fail validation. -/
theorem c7_message_counterexample :
    parameters_error_message ⟨2048, defaultBFV4096, 1024, .integer⟩ true ≠
      "parameters are not compliant with the security standard" ∧
    parameters_error_message ⟨2048, defaultBFV4096, 1024, .integer⟩ true ≠
      "valid" := by
  constructor <;> decide

/-- Claim C7 amended: the validation message is exactly "valid" when the
parameters pass, and exactly "parameters are not compliant with
HomomorphicEncryption.org security standard" when the security-standard
check rejects the modulus for the polynomial degree. -/
theorem c7_message_amended :
    parameters_error_message ⟨4096, defaultBFV4096, 1024, .integer⟩ true =
      "valid" ∧
    parameters_error_message ⟨2048, defaultBFV4096, 1024, .integer⟩ true =
      "parameters are not compliant with HomomorphicEncryption.org security standard" := by
  constructor <;> rfl

/-- Claim C8: all key material is generated at the root/key level — the
secret, public and relinearization keys are tagged with the fingerprint
of the root node of the modulus chain, and the root is the only node
flagged as key level. -/
theorem c8_keys_at_root_level (root : ParameterSet) :
    (keyGenerate root).secretKey.parmsId = fingerprint (keyContextData root) ∧
    (keyGenerate root).publicKey.parmsId = fingerprint (keyContextData root) ∧
    (keyGenerate root).relinKey.parmsId = fingerprint (keyContextData root) ∧
    (keyContextData root).is_key_level = true ∧
    keyContextData root ∈ chainNodes root ∧
    (∀ n ∈ chainNodes root, n.is_key_level = true → n = keyContextData root) := by
  refine ⟨rfl, rfl, rfl, rfl, List.mem_cons_self _ _, ?_⟩
  intro n hn hkey
  rcases List.mem_cons.mp hn with h | h
  · exact h
  · exfalso
    obtain ⟨p, _, hp⟩ := List.mem_map.mp h
    rw [← hp] at hkey
    simp at hkey

/-- Witness for the claim C8 theorem at a concrete root parameter set. -/
theorem c8_keys_at_root_level_witness :
    keyContextData ⟨8192, [13, 11, 7, 5, 3], 3, .integer⟩ ∈
      chainNodes ⟨8192, [13, 11, 7, 5, 3], 3, .integer⟩ ∧
    keyContextData ⟨8192, [13, 11, 7, 5, 3], 3, .integer⟩ =
      keyContextData ⟨8192, [13, 11, 7, 5, 3], 3, .integer⟩ ∧
    (keyGenerate ⟨8192, [13, 11, 7, 5, 3], 3, .integer⟩).secretKey.parmsId =
      fingerprint (keyContextData ⟨8192, [13, 11, 7, 5, 3], 3, .integer⟩) := by
  refine ⟨(c8_keys_at_root_level _).2.2.2.2.1, ?_, (c8_keys_at_root_level _).1⟩
  exact (c8_keys_at_root_level ⟨8192, [13, 11, 7, 5, 3], 3, .integer⟩).2.2.2.2.2 _
    (c8_keys_at_root_level _).2.2.2.2.1 (c8_keys_at_root_level _).2.2.2.1

/-- Claim C5 counterexample: the decoded output recorded in the source run
is not elementwise within 1e-6 of `[0.0, 1.21, 4.84, 10.89]` — the error
at slot 1 is about 1.494e-6. -/
theorem c5_tolerance_counterexample :
    ¬ ∀ i < 4, |recordedSquaredOutput.getD i 0 - expectedSquaredOutput.getD i 0| ≤
        1 / 1000000 := by
  intro h
  have h1 := h 1 (by norm_num)
  rw [show recordedSquaredOutput.getD 1 0 = 1210001494082472 / 10 ^ 15 from rfl,
      show expectedSquaredOutput.getD 1 0 = 121 / 100 from rfl,
      abs_of_nonneg (by norm_num)] at h1
  norm_num at h1

/-- Claim C5 amended: the scenario's decoded values are elementwise
within 2e-6 of `[0.0, 1.21, 4.84, 10.89]` (the recorded run's maximum
error is about 1.5e-6), the squared ciphertext's scale is exactly
`2 ^ 60` (the square of the original scale `2 ^ 30`), and the idealized
model decodes to the exact elementwise squares. -/
theorem c5_ckks_scenario_amended :
    (∀ ctx : CKKSContext, 8 ≤ ctx.degree →
        ∃ c, ckksSquareScenario ctx = .ok c ∧ c.scale = 2 ^ 60 ∧
          (ckksDecodeValues c).take 4 = expectedSquaredOutput) ∧
    (∀ i < 4, |recordedSquaredOutput.getD i 0 - expectedSquaredOutput.getD i 0| ≤
        2 / 1000000) := by
  constructor
  · intro ctx hdeg
    have hsq : ckksSquareScenario ctx =
        .ok ⟨ckksLevels ctx - 1, 2, 2 ^ 30 * 2 ^ 30,
          List.zipWith (· * ·)
            ((([0, 11/10, 22/10, 33/10] : List ℚ) ++
                List.replicate (ctx.degree / 2 - 4) 0).map (· * 2 ^ 30))
            ((([0, 11/10, 22/10, 33/10] : List ℚ) ++
                List.replicate (ctx.degree / 2 - 4) 0).map (· * 2 ^ 30))⟩ := by
      unfold ckksSquareScenario ckksSquare
      simp [ckksEncode, ckksEncrypt, ckksMultiply, ckksRelinearize,
        bind, Except.bind, pure, Except.pure]
    refine ⟨_, hsq, by norm_num, ?_⟩
    unfold ckksDecodeValues ckksDecode ckksDecrypt
    simp only [List.map_append]
    rw [List.zipWith_append _ _ _ _ _ (by rfl)]
    rw [List.map_append]
    have hlen : ((List.zipWith (· * ·)
        ((([0, 11/10, 22/10, 33/10] : List ℚ)).map (· * 2 ^ 30))
        ((([0, 11/10, 22/10, 33/10] : List ℚ)).map (· * 2 ^ 30))).map
          (· / (2 ^ 30 * 2 ^ 30))).length = 4 := by rfl
    rw [List.take_left' hlen]
    show ([0 * 2 ^ 30 * (0 * 2 ^ 30) / (2 ^ 30 * 2 ^ 30),
          11/10 * 2 ^ 30 * (11/10 * 2 ^ 30) / (2 ^ 30 * 2 ^ 30),
          22/10 * 2 ^ 30 * (22/10 * 2 ^ 30) / (2 ^ 30 * 2 ^ 30),
          33/10 * 2 ^ 30 * (33/10 * 2 ^ 30) / (2 ^ 30 * 2 ^ 30)] : List ℚ) =
      expectedSquaredOutput
    unfold expectedSquaredOutput
    norm_num
  · intro i hi
    interval_cases i <;>
      simp only [recordedSquaredOutput, expectedSquaredOutput,
        List.getD_cons_zero, List.getD_cons_succ] <;>
      rw [abs_le] <;> constructor <;> norm_num

/-- Witness for the claim C5 amended theorem at a concrete context. -/
theorem c5_ckks_scenario_amended_witness :
    8 ≤ (⟨8192, [3, 5]⟩ : CKKSContext).degree ∧
    (∃ c, ckksSquareScenario ⟨8192, [3, 5]⟩ = .ok c ∧ c.scale = 2 ^ 60 ∧
      (ckksDecodeValues c).take 4 = expectedSquaredOutput) ∧
    |recordedSquaredOutput.getD 1 0 - expectedSquaredOutput.getD 1 0| ≤
      2 / 1000000 :=
  ⟨by norm_num, c5_ckks_scenario_amended.1 ⟨8192, [3, 5]⟩ (by norm_num),
   c5_ckks_scenario_amended.2 1 (by norm_num)⟩

end HomEnc
